import Mathlib

/-!
# Event Store & Remote Sync of the pregnancy-planner dashboard — a shallow embedding

This file embeds the store / normalization / sync logic of `src/App.jsx`
(a React pregnancy-milestone calendar) into Lean 4 and proves the
specification claims about it.

Modelling conventions:
* JavaScript strings are `String`; absent / `null` / `undefined` record
  fields are `Option` (`none`), so `a ?? b` is `Option.getD` lifted to the
  value domain.
* Calendar dates are `CalDate` (year / month / day as `Nat`); the date-fns
  functions `parseISO`, `format(_, "yyyy-MM-dd")`, `isValid` and
  `differenceInCalendarDays` are modelled on date-only values, with
  `parseISO` accepting the ISO-8601 date-only forms `YYYY-MM-DD`,
  `YYYYMMDD`, `YYYY-MM` and `YYYY` with range validation (month 1–12, day
  within the month's length, Gregorian leap rule), and years restricted to
  the four-digit era 0–9999 covered by the `yyyy` format pattern.
* Network effects are passed in explicitly: each fetch's response is a
  parameter, and the remote calls a sync issues are returned as a trace.
-/

/-- A calendar date, the date-only content of a JS `Date` /
date-fns parse result. -/
structure CalDate where
  year : Nat
  month : Nat
  day : Nat
deriving DecidableEq, Repr

/-- Gregorian leap-year rule. -/
def isLeapYear (y : Nat) : Bool :=
  (y % 4 == 0 && y % 100 != 0) || y % 400 == 0

/-- Length of month `m` of year `y`. -/
def daysInMonth (y m : Nat) : Nat :=
  if m == 2 then (if isLeapYear y then 29 else 28)
  else if m == 4 || m == 6 || m == 9 || m == 11 then 30
  else 31

/-- Validity of a `CalDate`: models date-fns `isValid` on the dates this
program can produce, restricted to four-`yyyy`-digit years. -/
def CalDate.isValid (dt : CalDate) : Bool :=
  dt.year ≤ 9999 && 1 ≤ dt.month && dt.month ≤ 12 &&
    1 ≤ dt.day && dt.day ≤ daysInMonth dt.year dt.month

/-- The decimal digit character for `n % 10`. -/
def digitChar (n : Nat) : Char := Nat.digitChar (n % 10)

/-- Is `c` a decimal digit? -/
def isDigit (c : Char) : Bool := 48 ≤ c.toNat && c.toNat ≤ 57

/-- Numeric value of a digit character. -/
def digitVal (c : Char) : Nat := c.toNat - 48

/-- Two digit characters to a number, `none` unless both are digits. -/
def digits2 (a b : Char) : Option Nat :=
  if isDigit a && isDigit b then some (10 * digitVal a + digitVal b) else none

/-- Four digit characters to a number, `none` unless all are digits. -/
def digits4 (a b c d : Char) : Option Nat :=
  if isDigit a && isDigit b && isDigit c && isDigit d then
    some (1000 * digitVal a + 100 * digitVal b + 10 * digitVal c + digitVal d)
  else none

/-- Package year/month/day as a `CalDate` if the combination is valid. -/
def mkValidDate (y m d : Nat) : Option CalDate :=
  if (CalDate.mk y m d).isValid then some ⟨y, m, d⟩ else none

/-- Model of date-fns `parseISO` on date-only strings: accepts
`YYYY-MM-DD`, `YYYYMMDD`, `YYYY-MM` and `YYYY` with range validation,
`none` (JS `Invalid Date`) otherwise. -/
def parseISO (s : String) : Option CalDate :=
  match s.data with
  | [a, b, c, d, s1, e, f, s2, g, h] =>
    if s1 = '-' ∧ s2 = '-' then
      match digits4 a b c d, digits2 e f, digits2 g h with
      | some y, some mo, some dd => mkValidDate y mo dd
      | _, _, _ => none
    else none
  | [a, b, c, d, e, f, g, h] =>
    match digits4 a b c d, digits2 e f, digits2 g h with
    | some y, some mo, some dd => mkValidDate y mo dd
    | _, _, _ => none
  | [a, b, c, d, s1, e, f] =>
    if s1 = '-' then
      match digits4 a b c d, digits2 e f with
      | some y, some mo => mkValidDate y mo 1
      | _, _ => none
    else none
  | [a, b, c, d] =>
    match digits4 a b c d with
    | some y => mkValidDate y 1 1
    | none => none
  | _ => none

/-- Model of date-fns `format(dt, "yyyy-MM-dd")`: zero-padded
`YYYY-MM-DD`. -/
def formatYMD (dt : CalDate) : String :=
  ⟨[digitChar (dt.year / 1000), digitChar (dt.year / 100),
    digitChar (dt.year / 10), digitChar dt.year, '-',
    digitChar (dt.month / 10), digitChar dt.month, '-',
    digitChar (dt.day / 10), digitChar dt.day]⟩

/-- The whitespace class removed by JS `String.prototype.trim`. -/
def isJsWs (c : Char) : Bool :=
  c == ' ' || c == '\t' || c == '\n' || c == '\r' ||
    c == '\x0b' || c == '\x0c' || c == '\u00A0'

/-- Remove trailing JS whitespace from a character list. -/
def trimRightCh : List Char → List Char
  | [] => []
  | c :: rest =>
    match trimRightCh rest with
    | [] => if isJsWs c then [] else [c]
    | r => c :: r

/-- Model of JS `String.prototype.trim`. -/
def jsTrim (s : String) : String :=
  ⟨trimRightCh (s.data.dropWhile isJsWs)⟩

/-- A JS value flowing into `formatDateInput`: absent-or-`null`, a string,
or a `Date` object (an invalid `Date` is a `dateObj` whose `CalDate`
fails `isValid`). -/
inductive DateValue where
  | noval
  | str (s : String)
  | dateObj (d : CalDate)
deriving DecidableEq, Repr

/-- JS `a ?? b` on date-field values (`noval` is the nullish case). -/
def DateValue.orElse : DateValue → DateValue → DateValue
  | .noval, b => b
  | a, _ => a

/-- `formatDateInput` (App.jsx 94–104): empty/nullish input gives `""`;
a valid `Date` object is formatted directly; otherwise the string form is
parsed as ISO and formatted, and an unparseable value gives `""`
(`String(invalidDate) = "Invalid Date"` never parses as ISO). -/
def formatDateInput : DateValue → String
  | .noval => ""
  | .str s =>
    if s = "" then ""
    else
      match parseISO s with
      | some d => formatYMD d
      | none => ""
  | .dateObj d =>
    if d.isValid then formatYMD d else ""

/-- Is a date-field value parseable: a valid `Date` object or a non-empty
string accepted by `parseISO`? -/
def DateValue.parseable : DateValue → Bool
  | .noval => false
  | .str s => s ≠ "" && (parseISO s).isSome
  | .dateObj d => d.isValid

/-- A raw event record as the loaders / form hand it to `normalizeEvent`:
each JS key the code reads, `none` / `.noval` when absent or null.
Lower-case and capitalised keys are distinct fields. -/
structure RawRecord where
  date : DateValue := .noval
  Date : DateValue := .noval
  DATE : DateValue := .noval
  type : Option String := none
  «Type» : Option String := none
  title : Option String := none
  Title : Option String := none
  notes : Option String := none
  Notes : Option String := none
deriving DecidableEq, Repr

/-- A canonical event (App.jsx's normalized shape). -/
structure Event where
  date : String
  type : String
  title : String
  notes : String
deriving DecidableEq, Repr

/-- The date value `raw.date ?? raw.Date ?? raw.DATE` resolved by
`normalizeEvent`. -/
def RawRecord.dateValue (raw : RawRecord) : DateValue :=
  raw.date.orElse (raw.Date.orElse raw.DATE)

/-- `normalizeEvent` (App.jsx 106–115). -/
def normalizeEvent (raw : RawRecord) : Event :=
  { date := formatDateInput raw.dateValue
    type := jsTrim ((raw.type).getD ((raw.«Type»).getD ""))
    title := jsTrim ((raw.title).getD ((raw.Title).getD ""))
    notes := jsTrim ((raw.notes).getD ((raw.Notes).getD "")) }

/-! ## Loaders (App.jsx 131–155)

The network / XLSX layers are external: `fetchSheetEvents` receives the
row records `XLSX.utils.sheet_to_json` produced from the fetched workbook
(with `raw: false` every cell is a string), `fetchJsonEvents` receives
the parsed body's `events` field (`none` when it is not an array, the
`Array.isArray` guard). Both then normalize and drop events whose
normalized `date` is empty, exactly as the source does. -/

/-- `fetchSheetEvents` (App.jsx 131–145), as a function of the parsed
sheet rows. -/
def fetchSheetEvents (rows : List RawRecord) : List Event :=
  (rows.map normalizeEvent).filter (fun event => event.date ≠ "")

/-- `fetchJsonEvents` (App.jsx 147–155), as a function of the fetched
body's `events` array (`none` models `Array.isArray` failing, giving
`[]`). -/
def fetchJsonEvents (data : Option (List RawRecord)) : List Event :=
  ((data.getD []).map normalizeEvent).filter (fun event => event.date ≠ "")

/-! ## The Event Store -/

/-- The add-event form state (App.jsx 48–53): four string fields,
controlled inputs, so always present strings. -/
structure FormRecord where
  date : String
  type : String
  title : String
  notes : String
deriving DecidableEq, Repr

/-- The raw record `handleAddEvent` passes to `normalizeEvent`: the form
object with its four lowercase string keys. -/
def FormRecord.toRaw (f : FormRecord) : RawRecord :=
  { date := .str f.date, type := some f.type,
    title := some f.title, notes := some f.notes }

/-- The comparator `(a, b) => a.date.localeCompare(b.date)` viewed as a
"less-or-equal" test (lexicographic on the ISO date strings). -/
def dateLe (a b : Event) : Bool := decide (a.date ≤ b.date)

/-- `handleAddEvent` (App.jsx 337–352) on the store state: `none` when
validation fails (`!form.date || !form.title`) and the event list is left
unchanged; otherwise the normalized event is appended and the list
re-sorted ascending by `date` (JS `Array.prototype.sort` is stable, as is
`List.mergeSort`). -/
def handleAddEvent (form : FormRecord) (events : List Event) :
    Option (List Event) :=
  if form.date = "" ∨ form.title = "" then none
  else some ((events ++ [normalizeEvent form.toRaw]).mergeSort dateLe)

/-- One store-mutating operation: a load via either loader (which
replaces the whole list, `setEvents`), or a user add. -/
inductive StoreOp where
  | loadSheet (rows : List RawRecord)
  | loadJson (data : Option (List RawRecord))
  | addEvent (form : FormRecord)

/-- Effect of one operation on the store's event list; a failed add
leaves the list unchanged. -/
def applyOp (events : List Event) : StoreOp → List Event
  | .loadSheet rows => fetchSheetEvents rows
  | .loadJson data => fetchJsonEvents data
  | .addEvent form => (handleAddEvent form events).getD events

/-- Run a sequence of operations from the initial empty store
(`useState([])`). -/
def runOps (ops : List StoreOp) : List Event :=
  ops.foldl applyOp []

/-- `upcomingEvents` (App.jsx 322–328): events dated on/after today's
key, ascending by date, first 5. -/
def upcomingEvents (events : List Event) (todayKey : String) : List Event :=
  ((events.filter (fun event => decide (todayKey ≤ event.date))).mergeSort
    dateLe).take 5

/-- Is a date string in canonical ISO `YYYY-MM-DD` form (parses, and
re-formatting reproduces it verbatim)? -/
def canonicalISO (s : String) : Bool :=
  match parseISO s with
  | some d => formatYMD d == s
  | none => false

/-! ## Gestational progress (App.jsx 280–308) -/

/-- Day number of a civil date on a proleptic Gregorian timeline (shifted
by one 400-year era so it stays in `Nat`); differences of `dayNumber`s
model date-fns `differenceInCalendarDays`. -/
def CalDate.dayNumber (dt : CalDate) : Nat :=
  let y := if dt.month ≤ 2 then dt.year + 399 else dt.year + 400
  let m := if dt.month ≤ 2 then dt.month + 9 else dt.month - 3
  let era := y / 400
  let yoe := y % 400
  let doy := (153 * m + 2) / 5 + (dt.day - 1)
  let doe := yoe * 365 + yoe / 4 - yoe / 100 + doy
  era * 146097 + doe

/-- date-fns `differenceInCalendarDays(a, b)`: whole calendar days from
`b` to `a`, negative when `a` precedes `b`. -/
def differenceInCalendarDays (a b : CalDate) : Int :=
  (a.dayNumber : Int) - (b.dayNumber : Int)

/-- The claim-relevant fields of the `pregnancyProgress` memo. The
sentinel `"-"` values are kept as in the source; `pregnancyMonth` is
`none` for the `"-"` sentinel and `some n` for the numeric branch. -/
structure Progress where
  weekNumber : Nat
  dayOfWeek : Nat
  trimester : String
  pregnancyMonth : Option Nat
deriving DecidableEq, Repr

/-- `pregnancyProgress` (App.jsx 280–308) as a pure function of the LMP
reference date and today's date (`Math.floor(dayDelta / 7)` and
`dayDelta % 7` on a non-negative JS number are `Nat` division and
modulus; `Math.ceil(weekNumber / 4)` is `(weekNumber + 3) / 4`). -/
def pregnancyProgress (lmpDate today : CalDate) : Progress :=
  let dayDelta := differenceInCalendarDays today lmpDate
  let weekNumber := if 0 ≤ dayDelta then dayDelta.toNat / 7 else 0
  let dayOfWeek := if 0 ≤ dayDelta then dayDelta.toNat % 7 else 0
  { weekNumber := weekNumber
    dayOfWeek := dayOfWeek
    trimester :=
      if weekNumber ≤ 0 then "-"
      else if weekNumber ≤ 12 then "1st Trimester"
      else if weekNumber ≤ 27 then "2nd Trimester"
      else "3rd Trimester"
    pregnancyMonth :=
      if weekNumber ≤ 0 then none else some ((weekNumber + 3) / 4) }

/-! ## Remote sync (App.jsx 157–206, 361–414)

The GitHub API is external; each HTTP response is a parameter. The
payload bytes (base64 of the pretty-printed JSON / of the XLSX workbook)
are not inspected by any claim, so a request's `content` records which
encoder produced it and from which event list. -/

/-- The response to the metadata read (`GET contents`): its HTTP status
and the `sha` field of its JSON body. -/
structure MetaResponse where
  status : Nat
  sha : String
deriving DecidableEq, Repr

/-- A fetch `response.ok`: status in the 2xx range. -/
def respOk (status : Nat) : Bool := 200 ≤ status && status ≤ 299

/-- `getGitHubFileSha` (App.jsx 157–178) as a function of the metadata
response: 404 yields no marker, other non-2xx throws, otherwise the
body's `sha`. -/
def getGitHubFileSha (resp : MetaResponse) (path : String) :
    Except String (Option String) :=
  if resp.status == 404 then .ok none
  else if !respOk resp.status then
    .error ("Failed to read " ++ path ++ ": " ++ toString resp.status)
  else .ok (some resp.sha)

/-- Which encoder produced a request body, and from which event list. -/
inductive Payload where
  | json (events : List Event)
  | xlsx (events : List Event)
deriving DecidableEq, Repr

/-- The body of the `PUT contents` request issued by `putGitHubFile`. -/
structure PutRequest where
  path : String
  branch : String
  message : String
  content : Payload
  sha : Option String
deriving DecidableEq, Repr

/-- A remote call observable in a sync's trace. -/
inductive RemoteCall where
  | metaRead (path : String)
  | filePut (req : PutRequest)
deriving DecidableEq, Repr

/-- Arguments of one `putGitHubFile` call. -/
structure PutArgs where
  owner : String
  repo : String
  path : String
  branch : String
  token : String
  content : Payload
  message : String
deriving DecidableEq, Repr

/-- `putGitHubFile` (App.jsx 180–206): reads the file's sha (404 → null),
then issues the PUT whose body carries exactly that sha; returns the
remote calls performed and the outcome (`putOk` is the PUT response's
`ok`). -/
def putGitHubFile (args : PutArgs) (meta : MetaResponse) (putOk : Bool) :
    List RemoteCall × Except String Unit :=
  match getGitHubFileSha meta args.path with
  | .error e => ([.metaRead args.path], .error e)
  | .ok sha =>
    let req : PutRequest :=
      { path := args.path, branch := args.branch, message := args.message,
        content := args.content, sha := sha }
    ([.metaRead args.path, .filePut req],
      if putOk then .ok ()
      else .error ("Failed to update " ++ args.path))

/-- The sync settings (App.jsx 39–46). -/
structure Settings where
  owner : String
  repo : String
  branch : String
  token : String
  jsonPath : String
  xlsxPath : String
deriving DecidableEq, Repr

/-- The arguments of the JSON-file write inside `handleSync`. -/
def jsonPutArgs (settings : Settings) (events : List Event) : PutArgs :=
  { owner := settings.owner, repo := settings.repo,
    path := settings.jsonPath, branch := settings.branch,
    token := settings.token, content := .json events,
    message := "Update pregnancy data JSON" }

/-- The arguments of the xlsx-file write inside `handleSync`. -/
def xlsxPutArgs (settings : Settings) (events : List Event) : PutArgs :=
  { owner := settings.owner, repo := settings.repo,
    path := settings.xlsxPath, branch := settings.branch,
    token := settings.token, content := .xlsx events,
    message := "Update pregnancy data Excel" }

/-- The environment a sync runs against: the metadata response and PUT
outcome for each of the two target files. -/
structure SyncEnv where
  jsonMeta : MetaResponse
  jsonPutOk : Bool
  xlsxMeta : MetaResponse
  xlsxPutOk : Bool
deriving DecidableEq, Repr

/-- `handleSync` (App.jsx 361–414): precondition check on the settings,
then the JSON write, then — only if it succeeded — the xlsx write; any
thrown error is caught and becomes the status message. Returns the trace
of remote calls and the final status message. -/
def handleSync (settings : Settings) (events : List Event)
    (env : SyncEnv) : List RemoteCall × String :=
  if settings.owner = "" ∨ settings.repo = "" ∨ settings.token = "" then
    ([], "Add GitHub owner, repo, and token before syncing.")
  else
    match putGitHubFile (jsonPutArgs settings events) env.jsonMeta
        env.jsonPutOk with
    | (t1, .error e) => (t1, e)
    | (t1, .ok _) =>
      match putGitHubFile (xlsxPutArgs settings events) env.xlsxMeta
          env.xlsxPutOk with
      | (t2, .error e) => (t1 ++ t2, e)
      | (t2, .ok _) => (t1 ++ t2, "Synced data to GitHub.")

/-- Does a remote call write the xlsx target (a PUT whose body came from
the xlsx encoder)? -/
def RemoteCall.isXlsxPut : RemoteCall → Bool
  | .filePut req =>
    match req.content with
    | .xlsx _ => true
    | .json _ => false
  | .metaRead _ => false

/-- A re-normalized event viewed again as a raw record, as JS does when
an object with the canonical lowercase keys is passed to
`normalizeEvent`. -/
def Event.toRaw (e : Event) : RawRecord :=
  { date := .str e.date, type := some e.type,
    title := some e.title, notes := some e.notes }

/-- The Store invariant of the spec: every event has a non-empty date in
canonical ISO form. -/
def goodEvents (events : List Event) : Prop :=
  ∀ e ∈ events, e.date ≠ "" ∧ canonicalISO e.date = true

/-- An operation whose added form (if any) carries a parseable date;
loads always qualify. -/
def StoreOp.dateOk : StoreOp → Bool
  | .addEvent form => DateValue.parseable (.str form.date)
  | .loadSheet _ => true
  | .loadJson _ => true

unseal String.ltb List.merge List.mergeSort

/-! ## Helper lemmas: digits and the parse/format round trip -/

theorem toNat_digitChar (n : Nat) : (digitChar n).toNat = 48 + n % 10 := by
  unfold digitChar
  generalize hk : n % 10 = k
  have h : k < 10 := hk ▸ Nat.mod_lt _ (by omega)
  interval_cases k <;> rfl

theorem isDigit_digitChar (n : Nat) : isDigit (digitChar n) = true := by
  simp only [isDigit, toNat_digitChar, Bool.and_eq_true, decide_eq_true_eq]
  omega

theorem digitVal_digitChar (n : Nat) : digitVal (digitChar n) = n % 10 := by
  simp only [digitVal, toNat_digitChar]
  omega

theorem daysInMonth_le_31 (y m : Nat) : daysInMonth y m ≤ 31 := by
  unfold daysInMonth
  split
  · split <;> omega
  · split <;> omega

theorem parseISO_formatYMD {dt : CalDate} (h : dt.isValid = true) :
    parseISO (formatYMD dt) = some dt := by
  obtain ⟨y, m, d⟩ := dt
  simp only [CalDate.isValid, Bool.and_eq_true, decide_eq_true_eq] at h
  obtain ⟨⟨⟨⟨hy, hm1⟩, hm2⟩, hd1⟩, hd2⟩ := h
  have hd31 : d ≤ 31 := le_trans hd2 (daysInMonth_le_31 y m)
  simp only [formatYMD, parseISO, digits4, digits2, isDigit_digitChar,
    Bool.and_self, if_pos, digitVal_digitChar, and_self, if_true]
  have hy' : 1000 * (y / 1000 % 10) + 100 * (y / 100 % 10) +
      10 * (y / 10 % 10) + y % 10 = y := by omega
  have hm' : 10 * (m / 10 % 10) + m % 10 = m := by omega
  have hd' : 10 * (d / 10 % 10) + d % 10 = d := by omega
  rw [hy', hm', hd']
  simp only [mkValidDate, CalDate.isValid, Bool.and_eq_true, decide_eq_true_eq]
  rw [if_pos]
  exact ⟨⟨⟨⟨hy, hm1⟩, hm2⟩, hd1⟩, hd2⟩

theorem mkValidDate_isValid {y m d : Nat} {dt : CalDate}
    (h : mkValidDate y m d = some dt) : dt.isValid = true := by
  unfold mkValidDate at h
  split at h
  · cases h
    assumption
  · cases h

theorem parseISO_isValid {s : String} {dt : CalDate}
    (h : parseISO s = some dt) : dt.isValid = true := by
  unfold parseISO at h
  repeat' split at h
  all_goals first
    | exact mkValidDate_isValid h
    | cases h

theorem formatYMD_ne_empty (dt : CalDate) : formatYMD dt ≠ "" := by
  intro hcontra
  have h := congrArg String.data hcontra
  simp only [formatYMD] at h
  exact absurd h (by simp [show ("" : String).data = [] from rfl])

theorem canonicalISO_formatYMD {dt : CalDate} (h : dt.isValid = true) :
    canonicalISO (formatYMD dt) = true := by
  simp [canonicalISO, parseISO_formatYMD h]

theorem formatDateInput_of_parseable {v : DateValue}
    (h : v.parseable = true) :
    ∃ dt : CalDate, dt.isValid = true ∧ formatDateInput v = formatYMD dt := by
  cases v with
  | noval => simp [DateValue.parseable] at h
  | str s =>
    simp only [DateValue.parseable, Bool.and_eq_true, decide_eq_true_eq,
      ne_eq] at h
    obtain ⟨hne, hsome⟩ := h
    obtain ⟨dt, hdt⟩ := Option.isSome_iff_exists.mp hsome
    exact ⟨dt, parseISO_isValid hdt, by simp [formatDateInput, hne, hdt]⟩
  | dateObj d =>
    simp only [DateValue.parseable] at h
    exact ⟨d, h, by simp [formatDateInput, h]⟩

theorem formatDateInput_of_not_parseable {v : DateValue}
    (h : v.parseable = false) : formatDateInput v = "" := by
  cases v with
  | noval => rfl
  | str s =>
    by_cases hs : s = ""
    · simp [formatDateInput, hs]
    · cases hp : parseISO s with
      | some dt =>
        exfalso
        simp [DateValue.parseable, hs, hp] at h
      | none => simp [formatDateInput, hs, hp]
  | dateObj d =>
    simp only [DateValue.parseable] at h
    simp [formatDateInput, h]

theorem formatDateInput_ne_empty_iff (v : DateValue) :
    formatDateInput v ≠ "" ↔ v.parseable = true := by
  constructor
  · intro h
    by_contra hp
    exact h (formatDateInput_of_not_parseable (Bool.eq_false_iff.mpr hp))
  · intro h
    obtain ⟨dt, _, heq⟩ := formatDateInput_of_parseable h
    rw [heq]
    exact formatYMD_ne_empty dt

theorem formatDateInput_formatYMD {dt : CalDate} (h : dt.isValid = true) :
    formatDateInput (.str (formatYMD dt)) = formatYMD dt := by
  simp [formatDateInput, formatYMD_ne_empty dt, parseISO_formatYMD h]

/-! ## Helper lemmas: JS trim -/

theorem dropWhile_idem (p : α → Bool) (l : List α) :
    (l.dropWhile p).dropWhile p = l.dropWhile p := by
  induction l with
  | nil => rfl
  | cons a t ih =>
    by_cases h : p a = true
    · simp [List.dropWhile_cons, h, ih]
    · simp [List.dropWhile_cons, h]

theorem trimRightCh_cons (c : Char) (l : List Char) :
    trimRightCh (c :: l) =
      match trimRightCh l with
      | [] => if isJsWs c then [] else [c]
      | r => c :: r := rfl

theorem trimRightCh_head (c : Char) (l : List Char) :
    trimRightCh (c :: l) = [] ∨ ∃ r, trimRightCh (c :: l) = c :: r := by
  unfold trimRightCh
  cases h : trimRightCh l with
  | nil =>
    by_cases hws : isJsWs c = true
    · left
      simp [hws]
    · right
      exact ⟨[], by simp [hws]⟩
  | cons x xs => exact .inr ⟨x :: xs, rfl⟩

theorem trimRightCh_idem (l : List Char) :
    trimRightCh (trimRightCh l) = trimRightCh l := by
  induction l with
  | nil => rfl
  | cons c t ih =>
    rw [trimRightCh_cons c t]
    cases h : trimRightCh t with
    | nil =>
      by_cases hws : isJsWs c = true
      · simp [hws, trimRightCh]
      · simp [hws, trimRightCh]
    | cons x xs =>
      have h2 : trimRightCh (x :: xs) = x :: xs := by
        rw [← h, ih, h]
      show trimRightCh (c :: x :: xs) = c :: x :: xs
      rw [trimRightCh_cons, h2]

theorem dropWhile_trimRightCh (l : List Char)
    (hl : l.dropWhile isJsWs = l) :
    (trimRightCh l).dropWhile isJsWs = trimRightCh l := by
  cases l with
  | nil => rfl
  | cons c t =>
    have hc : isJsWs c = false := by
      by_contra hcontra
      have hc' : isJsWs c = true := by
        cases h : isJsWs c
        · exact absurd h hcontra
        · rfl
      rw [List.dropWhile_cons, hc'] at hl
      have := congrArg List.length hl
      have hle := (List.dropWhile_sublist (l := t) (p := isJsWs)).length_le
      simp at this
      omega
    rcases trimRightCh_head c t with h | ⟨r, h⟩
    · simp [h]
    · simp [h, List.dropWhile_cons, hc]

theorem jsTrim_idem (s : String) : jsTrim (jsTrim s) = jsTrim s := by
  unfold jsTrim
  have hdata : (⟨trimRightCh (s.data.dropWhile isJsWs)⟩ : String).data =
      trimRightCh (s.data.dropWhile isJsWs) := rfl
  rw [hdata, dropWhile_trimRightCh _ (dropWhile_idem isJsWs s.data),
    trimRightCh_idem]

/-! ## Helper lemmas: normalization, loaders and the store invariant -/

theorem normalizeEvent_date (raw : RawRecord) :
    (normalizeEvent raw).date = formatDateInput raw.dateValue := rfl

theorem normalizeEvent_date_canonical {raw : RawRecord}
    (h : (normalizeEvent raw).date ≠ "") :
    canonicalISO (normalizeEvent raw).date = true := by
  rw [normalizeEvent_date] at h ⊢
  obtain ⟨dt, hv, heq⟩ :=
    formatDateInput_of_parseable ((formatDateInput_ne_empty_iff _).mp h)
  rw [heq]
  exact canonicalISO_formatYMD hv

theorem fetchSheetEvents_good {rows : List RawRecord} {e : Event}
    (h : e ∈ fetchSheetEvents rows) :
    e.date ≠ "" ∧ canonicalISO e.date = true := by
  unfold fetchSheetEvents at h
  obtain ⟨hmem, hne⟩ := List.mem_filter.mp h
  obtain ⟨raw, _, rfl⟩ := List.mem_map.mp hmem
  simp only [ne_eq, decide_eq_true_eq] at hne
  exact ⟨hne, normalizeEvent_date_canonical hne⟩

theorem fetchJsonEvents_good {data : Option (List RawRecord)} {e : Event}
    (h : e ∈ fetchJsonEvents data) :
    e.date ≠ "" ∧ canonicalISO e.date = true := by
  unfold fetchJsonEvents at h
  obtain ⟨hmem, hne⟩ := List.mem_filter.mp h
  obtain ⟨raw, _, rfl⟩ := List.mem_map.mp hmem
  simp only [ne_eq, decide_eq_true_eq] at hne
  exact ⟨hne, normalizeEvent_date_canonical hne⟩

theorem dateLe_trans (a b c : Event) (h1 : dateLe a b) (h2 : dateLe b c) :
    dateLe a c := by
  simp only [dateLe, decide_eq_true_eq] at h1 h2 ⊢
  exact le_trans h1 h2

theorem dateLe_total (a b : Event) : dateLe a b || dateLe b a := by
  simp only [dateLe, Bool.or_eq_true, decide_eq_true_eq]
  exact le_total a.date b.date

theorem sorted_mergeSort_dateLe (l : List Event) :
    (l.mergeSort dateLe).Sorted (fun a b => a.date ≤ b.date) := by
  have h := List.sorted_mergeSort dateLe_trans dateLe_total l
  exact h.imp (fun hab => by simpa [dateLe] using hab)

theorem FormRecord.toRaw_dateValue (form : FormRecord) :
    form.toRaw.dateValue = .str form.date := rfl

theorem applyOp_good {events : List Event} {op : StoreOp}
    (hg : goodEvents events) (hop : op.dateOk) :
    goodEvents (applyOp events op) := by
  cases op with
  | loadSheet rows => exact fun e he => fetchSheetEvents_good he
  | loadJson data => exact fun e he => fetchJsonEvents_good he
  | addEvent form =>
    simp only [applyOp, handleAddEvent]
    split
    · exact hg
    · intro e he
      simp only [Option.getD_some, List.mem_mergeSort, List.mem_append,
        List.mem_singleton] at he
      rcases he with he | rfl
      · exact hg e he
      · have hne : (normalizeEvent form.toRaw).date ≠ "" := by
          rw [normalizeEvent_date, FormRecord.toRaw_dateValue]
          exact (formatDateInput_ne_empty_iff _).mpr hop
        exact ⟨hne, normalizeEvent_date_canonical hne⟩

theorem foldl_applyOp_good (ops : List StoreOp) (init : List Event)
    (hi : goodEvents init) (h : ∀ op ∈ ops, op.dateOk) :
    goodEvents (ops.foldl applyOp init) := by
  induction ops generalizing init with
  | nil => exact hi
  | cons op rest ih =>
    simp only [List.foldl_cons]
    exact ih _ (applyOp_good hi (h op (by simp)))
      (fun o ho => h o (by simp [ho]))

/-! ## Helper lemmas: remote sync -/

theorem putGitHubFile_json_calls (settings : Settings)
    (events : List Event) (meta : MetaResponse) (putOk : Bool) :
    ∀ c ∈ (putGitHubFile (jsonPutArgs settings events) meta putOk).1,
      c.isXlsxPut = false := by
  unfold putGitHubFile
  split <;> intro c hc <;>
    simp only [List.mem_cons, List.mem_singleton, List.not_mem_nil,
      or_false] at hc
  · rw [hc]
    rfl
  · rcases hc with hc | hc <;> rw [hc] <;> rfl

/-! ## The claims -/

/-- C2: in `putGitHubFile`, when the preceding `getGitHubFileSha` read
returns 404 the PUT is issued with a null `sha`; when it returns a 2xx
response whose body carries marker `meta.sha`, the PUT carries exactly
that marker. -/
theorem putGitHubFile_sha_spec (args : PutArgs) (meta : MetaResponse)
    (putOk : Bool) :
    (meta.status = 404 →
      (putGitHubFile args meta putOk).1 =
        [.metaRead args.path,
         .filePut { path := args.path, branch := args.branch,
                    message := args.message, content := args.content,
                    sha := none }]) ∧
    (respOk meta.status = true →
      (putGitHubFile args meta putOk).1 =
        [.metaRead args.path,
         .filePut { path := args.path, branch := args.branch,
                    message := args.message, content := args.content,
                    sha := some meta.sha }]) := by
  constructor
  · intro h404
    simp [putGitHubFile, getGitHubFileSha, h404]
  · intro hok
    have h404 : meta.status ≠ 404 := by
      simp only [respOk, Bool.and_eq_true, decide_eq_true_eq] at hok
      omega
    simp [putGitHubFile, getGitHubFileSha, h404, hok]

/-- C2 witness: a 404 metadata read leads to a PUT with no marker; a 200
read with marker `"abc123"` leads to a PUT carrying `"abc123"`. -/
theorem putGitHubFile_sha_spec_witness :
    (putGitHubFile ⟨"o", "r", "data.json", "main", "tok", .json [], "m"⟩
        ⟨404, ""⟩ true).1 =
      [.metaRead "data.json",
       .filePut ⟨"data.json", "main", "m", .json [], none⟩] ∧
    (putGitHubFile ⟨"o", "r", "data.json", "main", "tok", .json [], "m"⟩
        ⟨200, "abc123"⟩ true).1 =
      [.metaRead "data.json",
       .filePut ⟨"data.json", "main", "m", .json [], some "abc123"⟩] :=
  ⟨(putGitHubFile_sha_spec _ _ _).1 rfl,
   (putGitHubFile_sha_spec _ _ _).2 rfl⟩

/-- C3: if the JSON-file write step of `handleSync` fails (metadata read
throws or the PUT response is not ok), the sync returns that failure as
its status, its trace is exactly the JSON step's calls, and no xlsx
write is ever attempted. -/
theorem handleSync_json_failure_aborts (settings : Settings)
    (events : List Event) (env : SyncEnv) (e : String)
    (hown : settings.owner ≠ "") (hrepo : settings.repo ≠ "")
    (htok : settings.token ≠ "")
    (hfail : (putGitHubFile (jsonPutArgs settings events) env.jsonMeta
        env.jsonPutOk).2 = .error e) :
    handleSync settings events env =
      ((putGitHubFile (jsonPutArgs settings events) env.jsonMeta
        env.jsonPutOk).1, e) ∧
    ∀ c ∈ (handleSync settings events env).1, c.isXlsxPut = false := by
  have hmain : handleSync settings events env =
      ((putGitHubFile (jsonPutArgs settings events) env.jsonMeta
        env.jsonPutOk).1, e) := by
    unfold handleSync
    rw [if_neg (by simp [hown, hrepo, htok])]
    rcases hpg : putGitHubFile (jsonPutArgs settings events) env.jsonMeta
        env.jsonPutOk with ⟨t1, r1⟩
    rw [hpg] at hfail
    simp only at hfail
    rw [hfail]
  refine ⟨hmain, ?_⟩
  rw [hmain]
  intro c hc
  exact putGitHubFile_json_calls settings events env.jsonMeta
    env.jsonPutOk c hc

/-- C3 witness: with non-empty settings and a JSON PUT that fails, the
sync stops after the JSON step with its error and no xlsx call. -/
theorem handleSync_json_failure_aborts_witness :
    handleSync ⟨"o", "r", "main", "tok", "p.json", "p.xlsx"⟩ []
        ⟨⟨404, ""⟩, false, ⟨200, "m"⟩, true⟩ =
      ((putGitHubFile
          (jsonPutArgs ⟨"o", "r", "main", "tok", "p.json", "p.xlsx"⟩ [])
          ⟨404, ""⟩ false).1,
        "Failed to update p.json") ∧
    ∀ c ∈ (handleSync ⟨"o", "r", "main", "tok", "p.json", "p.xlsx"⟩ []
        ⟨⟨404, ""⟩, false, ⟨200, "m"⟩, true⟩).1, c.isXlsxPut = false :=
  handleSync_json_failure_aborts _ _ _ _ (by decide) (by decide)
    (by decide) rfl

/-- C1 (counterexample): the invariant fails for arbitrary form records —
`handleAddEvent` only checks that the form's date is non-empty, so a
non-empty unparseable date (here `"bad-date"`) passes validation and an
event with an empty date enters the store. -/
theorem store_dates_canonical_cex :
    ¬ (∀ e ∈ runOps [.addEvent ⟨"bad-date", "", "t", ""⟩],
        e.date ≠ "" ∧ canonicalISO e.date = true) := by decide

/-- C1 (amended): for every sequence of loads and adds in which each
add's form carries a parseable date, every event in the store has a
non-empty date in canonical ISO `YYYY-MM-DD` form. -/
theorem store_dates_canonical (ops : List StoreOp)
    (h : ∀ op ∈ ops, op.dateOk = true) :
    ∀ e ∈ runOps ops, e.date ≠ "" ∧ canonicalISO e.date = true :=
  foldl_applyOp_good ops [] (fun e he => absurd he (List.not_mem_nil e)) h

/-- C1 witness: after a JSON load followed by a well-formed add, the
added event sits in the store with a non-empty canonical date. -/
theorem store_dates_canonical_witness :
    (Event.mk "2026-03-09" "Ultrasound" "NT Scan" "").date ≠ "" ∧
    canonicalISO (Event.mk "2026-03-09" "Ultrasound" "NT Scan" "").date =
      true :=
  store_dates_canonical
    [.loadJson (some
      [{ date := .str "2026-01-08", «Type» := some "Ultrasound",
         Title := some "Dating" },
       { Date := .str "garbage" }]),
     .addEvent ⟨"2026-03-09", "Ultrasound", "NT Scan", ""⟩]
    (by decide) (Event.mk "2026-03-09" "Ultrasound" "NT Scan" "")
    (by decide)

/-- C4: the progress computation — for a negative day delta the week
number, day-of-week and trimester are the sentinels; otherwise the week
number is the floor of `dayDelta / 7` and the day-of-week is
`dayDelta mod 7`; the trimester is classified `0 / 1–12 / 13–27 / 28+`,
and the pregnancy month is the sentinel at week 0 and
`ceil(weekNumber / 4) = (weekNumber + 3) / 4` otherwise. -/
theorem pregnancyProgress_spec (lmpDate today : CalDate) :
    (differenceInCalendarDays today lmpDate < 0 →
      (pregnancyProgress lmpDate today).weekNumber = 0 ∧
      (pregnancyProgress lmpDate today).dayOfWeek = 0 ∧
      (pregnancyProgress lmpDate today).trimester = "-") ∧
    (0 ≤ differenceInCalendarDays today lmpDate →
      (pregnancyProgress lmpDate today).weekNumber =
        (differenceInCalendarDays today lmpDate).toNat / 7 ∧
      (pregnancyProgress lmpDate today).dayOfWeek =
        (differenceInCalendarDays today lmpDate).toNat % 7) ∧
    ((pregnancyProgress lmpDate today).trimester =
      if (pregnancyProgress lmpDate today).weekNumber = 0 then "-"
      else if (pregnancyProgress lmpDate today).weekNumber ≤ 12 then
        "1st Trimester"
      else if (pregnancyProgress lmpDate today).weekNumber ≤ 27 then
        "2nd Trimester"
      else "3rd Trimester") ∧
    ((pregnancyProgress lmpDate today).pregnancyMonth =
      if (pregnancyProgress lmpDate today).weekNumber = 0 then none
      else some (((pregnancyProgress lmpDate today).weekNumber + 3) / 4)) := by
  refine ⟨fun hneg => ?_, fun hpos => ?_, ?_, ?_⟩
  · have h : ¬ (0 ≤ differenceInCalendarDays today lmpDate) := by omega
    simp [pregnancyProgress, h]
  · simp [pregnancyProgress, hpos]
  · simp only [pregnancyProgress]
    split_ifs <;> simp_all
  · simp only [pregnancyProgress]
    split_ifs <;> simp_all

/-- C4 witness: at the spec's vectors — LMP 2025-10-20 with now
2025-12-01 (delta 42) the numeric formulas hold, and with now 2025-10-19
(delta −1) all sentinels hold. -/
theorem pregnancyProgress_spec_witness :
    ((pregnancyProgress ⟨2025, 10, 20⟩ ⟨2025, 12, 1⟩).weekNumber =
        (differenceInCalendarDays ⟨2025, 12, 1⟩ ⟨2025, 10, 20⟩).toNat / 7 ∧
      (pregnancyProgress ⟨2025, 10, 20⟩ ⟨2025, 12, 1⟩).dayOfWeek =
        (differenceInCalendarDays ⟨2025, 12, 1⟩ ⟨2025, 10, 20⟩).toNat % 7) ∧
    ((pregnancyProgress ⟨2025, 10, 20⟩ ⟨2025, 10, 19⟩).weekNumber = 0 ∧
      (pregnancyProgress ⟨2025, 10, 20⟩ ⟨2025, 10, 19⟩).dayOfWeek = 0 ∧
      (pregnancyProgress ⟨2025, 10, 20⟩ ⟨2025, 10, 19⟩).trimester = "-") :=
  ⟨(pregnancyProgress_spec ⟨2025, 10, 20⟩ ⟨2025, 12, 1⟩).2.1 (by decide),
   (pregnancyProgress_spec ⟨2025, 10, 20⟩ ⟨2025, 10, 19⟩).1 (by decide)⟩

/-- C5: `handleAddEvent` fails with a validation signal (returns `none`,
leaving the store unchanged) exactly when the form's date or title is
empty; a form with non-empty date and title is accepted. -/
theorem handleAddEvent_validation (form : FormRecord)
    (events : List Event) :
    ((form.date = "" ∨ form.title = "") →
      handleAddEvent form events = none ∧
      applyOp events (.addEvent form) = events) ∧
    (form.date ≠ "" → form.title ≠ "" →
      ∃ l, handleAddEvent form events = some l) := by
  constructor
  · intro h
    constructor
    · simp [handleAddEvent, h]
    · simp [applyOp, handleAddEvent, h]
  · intro hd ht
    exact ⟨(events ++ [normalizeEvent form.toRaw]).mergeSort dateLe,
      by simp [handleAddEvent, hd, ht]⟩

/-- C5 witness: the spec's vectors — `{date: "", title: "x"}` and
`{date: "2026-01-01", title: ""}` are rejected without a state change,
`{date: "2026-01-01", title: "Checkup"}` is accepted. -/
theorem handleAddEvent_validation_witness :
    (handleAddEvent ⟨"", "", "x", ""⟩ [] = none ∧
      applyOp [] (.addEvent ⟨"", "", "x", ""⟩) = []) ∧
    (handleAddEvent ⟨"2026-01-01", "", "", ""⟩ [] = none ∧
      applyOp [] (.addEvent ⟨"2026-01-01", "", "", ""⟩) = []) ∧
    (∃ l, handleAddEvent ⟨"2026-01-01", "", "Checkup", ""⟩ [] = some l) :=
  ⟨(handleAddEvent_validation _ _).1 (Or.inl rfl),
   (handleAddEvent_validation _ _).1 (Or.inr rfl),
   (handleAddEvent_validation _ _).2 (by decide) (by decide)⟩

/-- C6: an accepted add inserts the normalized event and re-sorts the
list ascending lexicographically by date: the result is a permutation of
the old list plus the new event, sorted by `date`. -/
theorem handleAddEvent_sorted_insert (form : FormRecord)
    (events : List Event) (hd : form.date ≠ "") (ht : form.title ≠ "") :
    ∃ l, handleAddEvent form events = some l ∧
      l.Perm (events ++ [normalizeEvent form.toRaw]) ∧
      l.Sorted (fun a b => a.date ≤ b.date) := by
  refine ⟨(events ++ [normalizeEvent form.toRaw]).mergeSort dateLe, ?_,
    List.mergeSort_perm _ _, sorted_mergeSort_dateLe _⟩
  simp [handleAddEvent, hd, ht]

/-- C6 witness: adding events dated `2026-01-03`, `2026-01-01`,
`2026-01-02` in that order yields them in date order `01, 02, 03`, and
the sorted-insert property holds at a concrete accepted add. -/
theorem handleAddEvent_sorted_insert_witness :
    ((runOps [.addEvent ⟨"2026-01-03", "", "a", ""⟩,
              .addEvent ⟨"2026-01-01", "", "b", ""⟩,
              .addEvent ⟨"2026-01-02", "", "c", ""⟩]).map Event.date =
      ["2026-01-01", "2026-01-02", "2026-01-03"]) ∧
    (∃ l, handleAddEvent ⟨"2026-01-02", "", "c", ""⟩
          [⟨"2026-01-01", "", "a", ""⟩, ⟨"2026-01-03", "", "b", ""⟩] =
        some l ∧
      l.Perm ([⟨"2026-01-01", "", "a", ""⟩, ⟨"2026-01-03", "", "b", ""⟩] ++
        [normalizeEvent (FormRecord.toRaw ⟨"2026-01-02", "", "c", ""⟩)]) ∧
      l.Sorted (fun a b => a.date ≤ b.date)) :=
  ⟨by decide,
   handleAddEvent_sorted_insert ⟨"2026-01-02", "", "c", ""⟩
     [⟨"2026-01-01", "", "a", ""⟩, ⟨"2026-01-03", "", "b", ""⟩]
     (by decide) (by decide)⟩

/-- `normalizeEvent` on a canonical event's record shape. -/
theorem normalizeEvent_toRaw (e : Event) :
    normalizeEvent e.toRaw =
      { date := formatDateInput (.str e.date), type := jsTrim e.type,
        title := jsTrim e.title, notes := jsTrim e.notes } := rfl

/-- C7: for every raw record with a parseable date field, normalization
is idempotent — re-normalizing the normalized event yields it
unchanged. -/
theorem normalizeEvent_idem (raw : RawRecord)
    (h : raw.dateValue.parseable = true) :
    normalizeEvent (normalizeEvent raw).toRaw = normalizeEvent raw := by
  obtain ⟨dt, hv, heq⟩ := formatDateInput_of_parseable h
  rw [normalizeEvent_toRaw]
  show Event.mk _ _ _ _ = _
  unfold normalizeEvent
  simp only [heq, formatDateInput_formatYMD hv, jsTrim_idem]

/-- C7 witness: idempotence at a concrete sheet-style record with
capitalised keys and padded text. -/
theorem normalizeEvent_idem_witness :
    normalizeEvent (normalizeEvent
      { date := .str "2026-01-08", «Type» := some " Ultrasound ",
        Title := some "Dating" : RawRecord }).toRaw =
    normalizeEvent
      { date := .str "2026-01-08", «Type» := some " Ultrasound ",
        Title := some "Dating" : RawRecord } :=
  normalizeEvent_idem _ (by decide)

/-- C8: a raw record whose resolved date field is unparseable normalizes
to an empty date, and the resulting event is excluded from both loaders'
outputs, whatever the fetched rows. -/
theorem unparseable_date_excluded (raw : RawRecord)
    (h : raw.dateValue.parseable = false) :
    (normalizeEvent raw).date = "" ∧
    (∀ rows, normalizeEvent raw ∉ fetchSheetEvents rows) ∧
    (∀ data, normalizeEvent raw ∉ fetchJsonEvents data) := by
  have hd : (normalizeEvent raw).date = "" := by
    rw [normalizeEvent_date]
    exact formatDateInput_of_not_parseable h
  exact ⟨hd,
    fun rows hmem => absurd hd (fetchSheetEvents_good hmem).1,
    fun data hmem => absurd hd (fetchJsonEvents_good hmem).1⟩

/-- C8 witness: the record `{Date: "soon", title: "TBD"}` has an
unparseable date, normalizes to an empty date, and is absent from the
loaders' outputs on a batch containing it. -/
theorem unparseable_date_excluded_witness :
    (normalizeEvent { Date := .str "soon", title := some "TBD" }).date = "" ∧
    normalizeEvent { Date := .str "soon", title := some "TBD" } ∉
      fetchSheetEvents
        [{ Date := .str "soon", title := some "TBD" },
         { date := .str "2026-01-08", title := some "Dating" }] ∧
    normalizeEvent { Date := .str "soon", title := some "TBD" } ∉
      fetchJsonEvents (some [{ Date := .str "soon", title := some "TBD" }]) :=
  ⟨(unparseable_date_excluded _ (by decide)).1,
   (unparseable_date_excluded _ (by decide)).2.1 _,
   (unparseable_date_excluded _ (by decide)).2.2 _⟩

/-- C9: the upcoming window has at most 5 events, is sorted ascending by
date, and only contains events dated on/after today's key. -/
theorem upcomingEvents_spec (events : List Event) (todayKey : String) :
    (upcomingEvents events todayKey).length ≤ 5 ∧
    (upcomingEvents events todayKey).Sorted (fun a b => a.date ≤ b.date) ∧
    ∀ e ∈ upcomingEvents events todayKey, todayKey ≤ e.date := by
  refine ⟨?_, ?_, ?_⟩
  · exact List.length_take_le 5 _
  · exact (sorted_mergeSort_dateLe _).sublist (List.take_sublist _ _)
  · intro e he
    have h1 := List.mem_of_mem_take he
    rw [List.mem_mergeSort] at h1
    have h2 := (List.mem_filter.mp h1).2
    exact of_decide_eq_true h2

/-- C9 witness: the spec holds at a concrete store and today key, and
the concrete member dated 2026-01-01 is on/after that key. -/
theorem upcomingEvents_spec_witness :
    (upcomingEvents [⟨"2026-01-01", "", "a", ""⟩, ⟨"2025-01-01", "", "b", ""⟩]
        "2025-06-01").length ≤ 5 ∧
    ("2025-06-01" : String) ≤ (Event.mk "2026-01-01" "" "a" "").date :=
  ⟨(upcomingEvents_spec _ _).1,
   (upcomingEvents_spec
       [⟨"2026-01-01", "", "a", ""⟩, ⟨"2025-01-01", "", "b", ""⟩]
       "2025-06-01").2.2
     (Event.mk "2026-01-01" "" "a" "") (by decide)⟩

/-- C10: `??` is nullish, not falsy — when a lowercase key is present,
even bound to the empty string, `normalizeEvent` uses it and never falls
back to the capitalised variant, so such a record normalizes with the
empty value. -/
theorem lowercase_key_precedence (raw : RawRecord) :
    (∀ v, raw.date = .str v →
      (normalizeEvent raw).date = formatDateInput (.str v)) ∧
    (∀ s, raw.type = some s → (normalizeEvent raw).type = jsTrim s) ∧
    (∀ s, raw.title = some s → (normalizeEvent raw).title = jsTrim s) ∧
    (∀ s, raw.notes = some s → (normalizeEvent raw).notes = jsTrim s) ∧
    (raw.date = .str "" → (normalizeEvent raw).date = "") ∧
    (raw.type = some "" → (normalizeEvent raw).type = "") ∧
    (raw.title = some "" → (normalizeEvent raw).title = "") ∧
    (raw.notes = some "" → (normalizeEvent raw).notes = "") := by
  refine ⟨fun v hv => ?_, fun s hs => ?_, fun s hs => ?_, fun s hs => ?_,
    fun hv => ?_, fun hs => ?_, fun hs => ?_, fun hs => ?_⟩ <;>
    simp [normalizeEvent, RawRecord.dateValue, DateValue.orElse, *] <;>
    decide

/-- C10 witness: a record with every lowercase key present but empty and
every capitalised key non-empty normalizes with all-empty values. -/
theorem lowercase_key_precedence_witness :
    (normalizeEvent
      { date := .str "", Date := .str "2026-01-01", type := some "",
        «Type» := some "Ultrasound", title := some "", Title := some "X",
        notes := some "", Notes := some "N" }).date = "" ∧
    (normalizeEvent
      { date := .str "", Date := .str "2026-01-01", type := some "",
        «Type» := some "Ultrasound", title := some "", Title := some "X",
        notes := some "", Notes := some "N" }).type = "" ∧
    (normalizeEvent
      { date := .str "", Date := .str "2026-01-01", type := some "",
        «Type» := some "Ultrasound", title := some "", Title := some "X",
        notes := some "", Notes := some "N" }).title = "" ∧
    (normalizeEvent
      { date := .str "", Date := .str "2026-01-01", type := some "",
        «Type» := some "Ultrasound", title := some "", Title := some "X",
        notes := some "", Notes := some "N" }).notes = "" :=
  ⟨(lowercase_key_precedence _).2.2.2.2.1 rfl,
   (lowercase_key_precedence _).2.2.2.2.2.1 rfl,
   (lowercase_key_precedence _).2.2.2.2.2.2.1 rfl,
   (lowercase_key_precedence _).2.2.2.2.2.2.2 rfl⟩

